import Mathlib

/-!
Verification of the search engine in `search_algorithm.py` (class
`AdaptiveSearchEngine` and `KnowledgeBaseBuilder`).  The puzzle itself
(`CubicPuzzle` from `puzzle_engine.py`) is an external collaborator that is
not part of the analyzed sources; it is modelled from the spec's "Puzzle
Model contract" as an abstract structure `PuzzleModel` whose fields are the
operations the search engine consumes.  All search-engine code is translated
directly from `search_algorithm.py`.
-/

namespace CubeSol

/-- Move axis, from `_generate_all_moves`: the move types
`'horizontal'`, `'vertical'`, `'sideways'`. -/
inductive Axis
  | horizontal
  | vertical
  | sideways
deriving DecidableEq

/-- A move is the tuple `(move_type, layer, direction)` used throughout
`search_algorithm.py`. -/
structure Move where
  axis : Axis
  layer : Nat
  direction : Nat
deriving DecidableEq

/-- Function `_generate_all_moves(puzzle_size)`: list comprehension with `move_type`
outermost, then `direction in [0, 1]`, then `layer in range(puzzle_size)`. -/
def generateAllMoves (size : Nat) : List Move :=
  ([Axis.horizontal, Axis.vertical, Axis.sideways]).flatMap (fun a =>
    ([0, 1] : List Nat).flatMap (fun d =>
      (List.range size).map (fun l => ⟨a, l, d⟩)))

/-- Function `_get_inverse_move`: `(move_type, layer, 1 - direction)`.  Directions
produced by `generateAllMoves` are 0 or 1, where Nat and Python subtraction
agree. -/
def getInverseMove (m : Move) : Move :=
  ⟨m.axis, m.layer, 1 - m.direction⟩

/-- Function `_reverse_path`: `[self._get_inverse_move(move) for move in reversed(path)]`. -/
def reversePath (path : List Move) : List Move :=
  path.reverse.map getInverseMove

/-- Modelled from the spec: the "Puzzle Model contract" of §6 for
`CubicPuzzle` (`puzzle_engine.py`), which is not among the analyzed source
files.  `applyMove` is `CubicPuzzle(configuration=s)` followed by the
rotation selected by `_apply_move` and `export_state()`; `isGoal` is
`is_completion_achieved()`; `sizeOf` is the `size` attribute of the puzzle
built from `s`; `matrix s f r c` is `CubicPuzzle(configuration=s).matrix[f][r][c]`;
`solvedOfDim n` is `CubicPuzzle(dimension=n).export_state()` and
`solvedMatrix n f r c` is `CubicPuzzle(dimension=n).matrix[f][r][c]`. -/
structure PuzzleModel where
  applyMove : String → Move → String
  isGoal : String → Bool
  sizeOf : String → Nat
  matrix : String → Nat → Nat → Nat → Nat
  solvedOfDim : Nat → String
  solvedMatrix : Nat → Nat → Nat → Nat → Nat

/-- The knowledge base `Dict[str, int]`, as an insertion-ordered association
list. -/
abbrev KB := List (String × Nat)

/-- Python `state in db` / `db[state]` combined: first matching key. -/
def lookupKB : KB → String → Option Nat
  | [], _ => none
  | (k, v) :: rest, s => if k = s then some v else lookupKB rest s

/-- Python `db[key] = value`: replace in place if the key is present,
append at the end otherwise. -/
def insertKB : KB → String → Nat → KB
  | [], s, v => [(s, v)]
  | (k, w) :: rest, s, v =>
    if k = s then (k, v) :: rest else (k, w) :: insertKB rest s v

/-- All `(face, row, col)` triples scanned by `_manhattan_distance_heuristic`:
`face in range(6)`, `row in range(size)`, `col in range(size)`. -/
def faceCells (size : Nat) : List (Nat × Nat × Nat) :=
  (List.range 6).flatMap (fun f =>
    (List.range size).flatMap (fun r =>
      (List.range size).map (fun c => (f, r, c))))

/-- The list `corner_positions` from `_corner_heuristic`. -/
def cornerPositions (size : Nat) : List (Nat × Nat) :=
  [(0, 0), (0, size - 1), (size - 1, 0), (size - 1, size - 1)]

/-- The list `edge_positions` from `_edge_heuristic` (only used when `size >= 3`). -/
def edgePositions (size : Nat) : List (Nat × Nat) :=
  [(0, size / 2), (size / 2, 0), (size / 2, size - 1), (size - 1, size / 2)]

/-- The misplaced-facelet count of `_manhattan_distance_heuristic`:
cells where `puzzle.matrix[f][r][c] != solved.matrix[f][r][c]`. -/
def misplacedPieces (M : PuzzleModel) (s : String) : Nat :=
  (faceCells (M.sizeOf s)).countP
    (fun t => M.matrix s t.1 t.2.1 t.2.2 != M.solvedMatrix (M.sizeOf s) t.1 t.2.1 t.2.2)

/-- The misplaced-corner-facelet count of `_corner_heuristic`. -/
def misplacedCorners (M : PuzzleModel) (s : String) : Nat :=
  ((List.range 6).flatMap (fun f =>
    (cornerPositions (M.sizeOf s)).map (fun rc => (f, rc.1, rc.2)))).countP
    (fun t => M.matrix s t.1 t.2.1 t.2.2 != M.solvedMatrix (M.sizeOf s) t.1 t.2.1 t.2.2)

/-- The misplaced-edge-facelet count of `_edge_heuristic`; stays 0 when
`puzzle.size < 3`. -/
def misplacedEdges (M : PuzzleModel) (s : String) : Nat :=
  if 3 ≤ M.sizeOf s then
    ((List.range 6).flatMap (fun f =>
      (edgePositions (M.sizeOf s)).map (fun rc => (f, rc.1, rc.2)))).countP
      (fun t => M.matrix s t.1 t.2.1 t.2.2 != M.solvedMatrix (M.sizeOf s) t.1 t.2.1 t.2.2)
  else 0

/-- Function `_manhattan_distance_heuristic`: `max(1, misplaced_pieces // 4)`. -/
def manhattanDistanceHeuristic (M : PuzzleModel) (s : String) : Nat :=
  max 1 (misplacedPieces M s / 4)

/-- Function `_corner_heuristic`: `max(0, misplaced_corners // 6)`. -/
def cornerHeuristic (M : PuzzleModel) (s : String) : Nat :=
  max 0 (misplacedCorners M s / 6)

/-- Function `_edge_heuristic`: `max(0, misplaced_edges // 8)`. -/
def edgeHeuristic (M : PuzzleModel) (s : String) : Nat :=
  max 0 (misplacedEdges M s / 8)

/-- Function `_get_heuristic_value`: knowledge-base lookup first, otherwise the
maximum of the three fallback estimators.  (The `heuristic_hits` counter is
diagnostic only and is not modelled.) -/
def getHeuristicValue (M : PuzzleModel) (db : KB) (s : String) : Nat :=
  match lookupKB db s with
  | some v => v
  | none =>
    max (manhattanDistanceHeuristic M s) (max (cornerHeuristic M s) (edgeHeuristic M s))

/-- The transition cache `self.move_cache : Dict[(state, move), state]`,
as an insertion-ordered association list. -/
abbrev Cache := List ((String × Move) × String)

/-- Python `cache_key in self.move_cache` / `self.move_cache[cache_key]`. -/
def lookupCache : Cache → String → Move → Option String
  | [], _, _ => none
  | ((k, km), v) :: rest, s, m =>
    if k = s ∧ km = m then some v else lookupCache rest s m

/-- The constant `max_cache_size` in `_get_next_state`. -/
def maxCacheSize : Nat := 50000

/-- Function `_get_next_state`: cached lookup; on a miss the move is applied, and if
the cache has reached `max_cache_size` the oldest quarter of the entries
(Python `list(keys())[:max_cache_size // 4]`, the first-inserted keys) is
evicted before the new entry is appended. -/
def cachedNext (M : PuzzleModel) (c : Cache) (s : String) (m : Move) : String × Cache :=
  match lookupCache c s m with
  | some v => (v, c)
  | none =>
    let ns := M.applyMove s m
    if c.length < maxCacheSize then (ns, c ++ [((s, m), ns)])
    else (ns, c.drop (maxCacheSize / 4) ++ [((s, m), ns)])

/-- Insert an element after every existing element that is `le` it.  Used to
realize Python's stable `sorted`. -/
def insertOrdered (le : α → α → Bool) (x : α) : List α → List α
  | [] => [x]
  | y :: ys => if le y x then y :: insertOrdered le x ys else x :: y :: ys

/-- Stable ascending sort (insertion sort), processing the list left to
right and placing each element after existing elements with equal or
smaller keys.  For a total preorder `le` this produces exactly the output
of Python's stable `sorted`: a stably sorted permutation is unique. -/
def stableSortBy (le : α → α → Bool) (l : List α) : List α :=
  l.foldl (fun acc x => insertOrdered le x acc) []

/-- Priority assigned by `move_priority` inside `_generate_ordered_moves`:
start at 0, subtract 2 for outer-layer moves, 1 for horizontal moves, and 3
for moves whose resulting heuristic value is strictly lower than the
current state's, the last only when `state` is truthy (nonempty) and
`self.heuristic_db` is truthy (nonempty).  The `try` block around the
heuristic probe always succeeds here, because the modelled Puzzle Model is
total. -/
def movePriority (M : PuzzleModel) (db : KB) (size : Nat) (s : String) (m : Move) : Int :=
  let p0 : Int := 0
  let p1 : Int := if m.layer = 0 ∨ m.layer = size - 1 then p0 - 2 else p0
  let p2 : Int := if m.axis = Axis.horizontal then p1 - 1 else p1
  if s.length ≠ 0 ∧ db ≠ [] then
    if getHeuristicValue M db (M.applyMove s m) < getHeuristicValue M db s then p2 - 3
    else p2
  else p2

/-- Function `_generate_ordered_moves`: all moves, minus the inverse of the previous
move, stably sorted by `move_priority` (Python `sorted` is stable). -/
def generateOrderedMoves (M : PuzzleModel) (db : KB) (size : Nat)
    (prev : Option Move) (s : String) : List Move :=
  let ms := generateAllMoves size
  let ms := match prev with
    | none => ms
    | some pm => ms.filter (fun m => m ≠ getInverseMove pm)
  stableSortBy (fun a b => movePriority M db size s a ≤ movePriority M db size s b) ms

/-- A BFS queue entry `(state, path)`. -/
abbrev BfsQueue := List (String × List Move)

/-- Visited set of states (only membership is used). -/
abbrev Visited := List String

/-- Inner loop of `_breadth_first_search` over
`self._generate_all_moves(puzzle.size)`: unvisited neighbors are marked
visited and appended to the queue with the extended path. -/
def bfsExpand (M : PuzzleModel) (s : String) (path : List Move) :
    List Move → BfsQueue → Visited → Cache → BfsQueue × Visited × Cache
  | [], q, vis, c => (q, vis, c)
  | m :: ms, q, vis, c =>
    let (ns, c') := cachedNext M c s m
    if ns ∈ vis then bfsExpand M s path ms q vis c'
    else bfsExpand M s path ms (q ++ [(ns, path ++ [m])]) (ns :: vis) c'

/-- Main loop of `_breadth_first_search`: pop the queue head; `return None`
as soon as a popped path is longer than `max_depth`; return the path at a
goal state; otherwise expand.  The loop is given explicit fuel (the Python
loop runs until the queue empties). -/
def bfsLoop (M : PuzzleModel) (maxDepth : Nat) :
    Nat → BfsQueue → Visited → Cache → Option (List Move) × Cache
  | 0, _, _, c => (none, c)
  | _ + 1, [], _, c => (none, c)
  | fuel + 1, (s, path) :: rest, vis, c =>
    if path.length > maxDepth then (none, c)
    else if M.isGoal s then (some path, c)
    else
      let (q', vis', c') := bfsExpand M s path (generateAllMoves (M.sizeOf s)) rest vis c
      bfsLoop M maxDepth fuel q' vis' c'

/-- Function `_breadth_first_search(initial_state, max_depth)`: queue seeded with
`(initial_state, [])`, visited seeded with `{initial_state}`. -/
def breadthFirstSearch (M : PuzzleModel) (fuel maxDepth : Nat) (c : Cache)
    (init : String) : Option (List Move) × Cache :=
  bfsLoop M maxDepth fuel [(init, [])] [init] c

/-- A search frontier: `Dict[state, path]` in insertion order. -/
abbrev Frontier := List (String × List Move)

/-- Function `_find_path_in_frontier`: `frontier.get(state, [])`. -/
def frontierGet : Frontier → String → List Move
  | [], _ => []
  | (k, p) :: rest, s => if k = s then p else frontierGet rest s

/-- Per-move inner loop of the forward-frontier expansion (identical in
`_bidirectional_search` lines 106-114 and
`_bidirectional_search_with_timeout` lines 363-372): a neighbor in
`backward_visited` is a meeting point and the function returns
`path + [move] + _reverse_path(backward_path)`; otherwise unvisited
neighbors join the new forward frontier. -/
def expandMovesF (M : PuzzleModel) (s : String) (path : List Move) (bf : Frontier) :
    List Move → Visited → Visited → Frontier → Cache →
    Except (List Move × Cache) (Frontier × Visited × Cache)
  | [], _, fv, nf, c => .ok (nf, fv, c)
  | m :: ms, bv, fv, nf, c =>
    let (ns, c') := cachedNext M c s m
    if ns ∈ bv then .error (path ++ [m] ++ reversePath (frontierGet bf ns), c')
    else if ns ∈ fv then expandMovesF M s path bf ms bv fv nf c'
    else expandMovesF M s path bf ms bv (ns :: fv) (nf ++ [(ns, path ++ [m])]) c'

/-- Iteration over `forward_frontier.items()` for the forward expansion. -/
def expandStatesF (M : PuzzleModel) (movs : List Move) (bf : Frontier) :
    Frontier → Visited → Visited → Frontier → Cache →
    Except (List Move × Cache) (Frontier × Visited × Cache)
  | [], _, fv, nf, c => .ok (nf, fv, c)
  | (s, path) :: rest, bv, fv, nf, c =>
    match expandMovesF M s path bf movs bv fv nf c with
    | .error r => .error r
    | .ok (nf', fv', c') => expandStatesF M movs bf rest bv fv' nf' c'

/-- Per-move inner loop of the backward-frontier expansion in
`_bidirectional_search` (lines 124-132): a neighbor in `forward_visited`
returns `forward_path + _reverse_path(path + [move])`, where `forward_path`
is looked up in the just-rebuilt forward frontier `nf`. -/
def expandMovesB1 (M : PuzzleModel) (s : String) (path : List Move) (nf : Frontier) :
    List Move → Visited → Visited → Frontier → Cache →
    Except (List Move × Cache) (Frontier × Visited × Cache)
  | [], _, bv, nb, c => .ok (nb, bv, c)
  | m :: ms, fv, bv, nb, c =>
    let (ns, c') := cachedNext M c s m
    if ns ∈ fv then .error (frontierGet nf ns ++ reversePath (path ++ [m]), c')
    else if ns ∈ bv then expandMovesB1 M s path nf ms fv bv nb c'
    else expandMovesB1 M s path nf ms fv (ns :: bv) (nb ++ [(ns, path ++ [m])]) c'

/-- Iteration over `backward_frontier.items()` for `_bidirectional_search`. -/
def expandStatesB1 (M : PuzzleModel) (movs : List Move) (nf : Frontier) :
    Frontier → Visited → Visited → Frontier → Cache →
    Except (List Move × Cache) (Frontier × Visited × Cache)
  | [], _, bv, nb, c => .ok (nb, bv, c)
  | (s, path) :: rest, fv, bv, nb, c =>
    match expandMovesB1 M s path nf movs fv bv nb c with
    | .error r => .error r
    | .ok (nb', bv', c') => expandStatesB1 M movs nf rest fv bv' nb' c'

/-- Per-move inner loop of the backward-frontier expansion in
`_bidirectional_search_with_timeout` (lines 380-389): on a meeting point it
returns `forward_path + _reverse_path([move] + path)` — note the connecting
move is prepended, unlike `_bidirectional_search`. -/
def expandMovesB2 (M : PuzzleModel) (s : String) (path : List Move) (nf : Frontier) :
    List Move → Visited → Visited → Frontier → Cache →
    Except (List Move × Cache) (Frontier × Visited × Cache)
  | [], _, bv, nb, c => .ok (nb, bv, c)
  | m :: ms, fv, bv, nb, c =>
    let (ns, c') := cachedNext M c s m
    if ns ∈ fv then .error (frontierGet nf ns ++ reversePath ([m] ++ path), c')
    else if ns ∈ bv then expandMovesB2 M s path nf ms fv bv nb c'
    else expandMovesB2 M s path nf ms fv (ns :: bv) (nb ++ [(ns, path ++ [m])]) c'

/-- Iteration over `backward_frontier.items()` for
`_bidirectional_search_with_timeout`. -/
def expandStatesB2 (M : PuzzleModel) (movs : List Move) (nf : Frontier) :
    Frontier → Visited → Visited → Frontier → Cache →
    Except (List Move × Cache) (Frontier × Visited × Cache)
  | [], _, bv, nb, c => .ok (nb, bv, c)
  | (s, path) :: rest, fv, bv, nb, c =>
    match expandMovesB2 M s path nf movs fv bv nb c with
    | .error r => .error r
    | .ok (nb', bv', c') => expandStatesB2 M movs nf rest fv bv' nb' c'

/-- Loop `for depth in range(max_depth)` of `_bidirectional_search`: expand the
forward frontier (early-returning on a meet), break with `None` if it
produced nothing new, then likewise for the backward frontier. -/
def bidirLoop1 (M : PuzzleModel) (movs : List Move) :
    Nat → Frontier → Frontier → Visited → Visited → Cache →
    Option (List Move) × Cache
  | 0, _, _, _, _, c => (none, c)
  | d + 1, ff, bf, fv, bv, c =>
    match expandStatesF M movs bf ff bv fv [] c with
    | .error (sol, c') => (some sol, c')
    | .ok (nf, fv', c') =>
      if nf = [] then (none, c')
      else
        match expandStatesB1 M movs nf bf fv' bv [] c' with
        | .error (sol, c'') => (some sol, c'')
        | .ok (nb, bv', c'') =>
          if nb = [] then (none, c'')
          else bidirLoop1 M movs d nf nb fv' bv' c''

/-- Loop `for depth in range(max_depth)` of `_bidirectional_search_with_timeout`:
the wall-clock timeout check at the top of each layer is modelled by the
oracle `timedOut` indexed by the layer number; there are no
empty-frontier breaks in this variant. -/
def bidirLoop2 (M : PuzzleModel) (movs : List Move) (timedOut : Nat → Bool) :
    Nat → Nat → Frontier → Frontier → Visited → Visited → Cache →
    Option (List Move) × Cache
  | 0, _, _, _, _, _, c => (none, c)
  | d + 1, idx, ff, bf, fv, bv, c =>
    if timedOut idx then (none, c)
    else
      match expandStatesF M movs bf ff bv fv [] c with
      | .error (sol, c') => (some sol, c')
      | .ok (nf, fv', c') =>
        match expandStatesB2 M movs nf bf fv' bv [] c' with
        | .error (sol, c'') => (some sol, c'')
        | .ok (nb, bv', c'') => bidirLoop2 M movs timedOut d (idx + 1) nf nb fv' bv' c''

/-- Function `_bidirectional_search`: solved state from `CubicPuzzle(dimension=3)`,
move set `_generate_all_moves(3)`, `max_depth = min(self.depth_ceiling // 2, 8)`. -/
def bidirectionalSearch (M : PuzzleModel) (ceiling : Nat) (c : Cache)
    (init : String) : Option (List Move) × Cache :=
  let solved := M.solvedOfDim 3
  if init = solved then (some [], c)
  else
    bidirLoop1 M (generateAllMoves 3) (min (ceiling / 2) 8)
      [(init, [])] [(solved, [])] [init] [solved] c

/-- Function `_bidirectional_search_with_timeout`: solved state from
`CubicPuzzle(dimension=3)`, move set `_generate_all_moves(3)`,
`max_depth = 6`, timeout oracle checked at the top of each layer. -/
def bidirectionalSearchTimeout (M : PuzzleModel) (timedOut : Nat → Bool)
    (c : Cache) (init : String) : Option (List Move) × Cache :=
  let solved := M.solvedOfDim 3
  if init = solved then (some [], c)
  else
    bidirLoop2 M (generateAllMoves 3) timedOut 6 0
      [(init, [])] [(solved, [])] [init] [solved] c

/-- The per-solve mutable state threaded through
`_depth_limited_search_optimized`: `self.visited_states` (keyed by
`(state, g % 4)`), `self.next_threshold` (`none` models `float('inf')`),
and `self.move_cache`. -/
structure DfsState where
  visited : List (String × Nat)
  nextThreshold : Option Nat
  cache : Cache
deriving DecidableEq

/-- Update `if f < self.next_threshold: self.next_threshold = f`
(`float('inf')` is `none`, and everything is below it). -/
def bumpNext (st : DfsState) (f : Nat) : DfsState :=
  { st with
    nextThreshold :=
      match st.nextThreshold with
      | none => some f
      | some t => if f < t then some f else some t }

/-- Function `_depth_limited_search_optimized(state, g, prev_move)`.  The result is
`(found, path-from-this-node, state')`; on success the accumulated
`self.solution_path` is the concatenation of the chosen moves down the
successful spine, reconstructed here as the returned path.  The
`for move in moves` loop (append the move, recurse, pop on failure, stop at
the first success) is a fold that passes a found result through unchanged.
The Python recursion depth is bounded by `threshold + 2` because pruning
fires once `g` exceeds the threshold (the heuristic is a Nat), so running
the translation with fuel at least `threshold + 2` reproduces it exactly. -/
def dfs (M : PuzzleModel) (db : KB) (threshold : Nat) :
    Nat → String → Nat → Option Move → DfsState → Bool × List Move × DfsState
  | 0, _, _, _, st => (false, [], st)
  | fuel + 1, s, g, prev, st =>
    let h := getHeuristicValue M db s
    if g + h > threshold then (false, [], bumpNext st (g + h))
    else if M.isGoal s then (true, [], st)
    else if (s, g % 4) ∈ st.visited then (false, [], st)
    else
      let st1 := { st with visited := (s, g % 4) :: st.visited }
      match (generateOrderedMoves M db (M.sizeOf s) prev s).foldl
          (fun acc m =>
            match acc with
            | (true, tail, st') => (true, tail, st')
            | (false, _, st') =>
              let (ns, c') := cachedNext M st'.cache s m
              match dfs M db threshold fuel ns (g + 1) (some m)
                  { st' with cache := c' } with
              | (true, tail, st'') => (true, m :: tail, st'')
              | (false, _, st'') => (false, [], st''))
          (false, [], st1) with
      | (true, tail, st') => (true, tail, st')
      | (false, _, st') =>
        (false, [], { st' with visited := st'.visited.erase (s, g % 4) })

/-- The value `max(initial_h, 1)`, the starting threshold of `_ida_star_search`. -/
def initialThreshold (M : PuzzleModel) (db : KB) (init : String) : Nat :=
  max (getHeuristicValue M db init) 1

/-- The `while self.current_threshold <= self.depth_ceiling` loop of
`_ida_star_search`: each iteration runs a fresh depth-limited search
(visited set and solution path cleared, `next_threshold` reset to
infinity; the move cache persists); on failure the threshold becomes the
recorded `next_threshold`, or the loop breaks (returning `[]`) if that is
still infinite. -/
def idaLoop (M : PuzzleModel) (db : KB) (ceiling : Nat) (init : String) :
    Nat → Nat → Cache → List Move × Cache
  | 0, _, c => ([], c)
  | fuel + 1, t, c =>
    if t > ceiling then ([], c)
    else
      match dfs M db t (t + 2) init 0 none ⟨[], none, c⟩ with
      | (true, path, st) => (path, st.cache)
      | (false, _, st) =>
        match st.nextThreshold with
        | none => ([], st.cache)
        | some nt => idaLoop M db ceiling init fuel nt st.cache

/-- Function `_ida_star_search(initial_state)`. -/
def idaStar (M : PuzzleModel) (db : KB) (ceiling fuel : Nat) (c : Cache)
    (init : String) : List Move × Cache :=
  idaLoop M db ceiling init fuel (initialThreshold M db init) c

/-- Function `solve_puzzle`: BFS at depth 6, then bidirectional search, then IDA*,
falling through whenever the previous result is falsy (Python treats both
`None` and the empty list as false). -/
def solvePuzzle (M : PuzzleModel) (db : KB) (ceiling bfsFuel idaFuel : Nat)
    (c : Cache) (init : String) : List Move :=
  let r1 := breadthFirstSearch M bfsFuel 6 c init
  match r1.1 with
  | some (m :: p) => m :: p
  | _ =>
    let r2 := bidirectionalSearch M ceiling r1.2 init
    match r2.1 with
    | some (m :: p) => m :: p
    | _ => (idaStar M db ceiling idaFuel r2.2 init).1

/-- One move of the `for move in move_set` loop in
`construct_heuristic_database`.  `applyE` models the `try` body
(`CubicPuzzle` construction, rotation, `export_state`); `none` is the
`except` branch, which `continue`s past the queue-pruning check.  A new or
improved state is recorded at `current_depth + 1` and queued when that is
below `exploration_depth`; afterwards, a queue grown beyond 100000 entries
is pruned to the 50000 lowest-depth ones (stable sort by depth). -/
def buildStep (applyE : String → Move → Option String) (depth : Nat)
    (s : String) (d : Nat) (db : KB) (q : List (String × Nat)) (m : Move) :
    KB × List (String × Nat) :=
  match applyE s m with
  | none => (db, q)
  | some ns =>
    let nd := d + 1
    let write : Bool :=
      match lookupKB db ns with
      | none => true
      | some old => old > nd
    let db' := if write then insertKB db ns nd else db
    let q' := if write ∧ nd < depth then q ++ [(ns, nd)] else q
    let q'' :=
      if q'.length > 100000 then
        (stableSortBy (fun a b => a.2 ≤ b.2) q').take 50000
      else q'
    (db', q'')

/-- The `for move in move_set` loop of `construct_heuristic_database`. -/
def buildExpand (applyE : String → Move → Option String) (depth : Nat)
    (s : String) (d : Nat) :
    List Move → KB → List (String × Nat) → KB × List (String × Nat)
  | [], db, q => (db, q)
  | m :: ms, db, q =>
    let (db', q') := buildStep applyE depth s d db q m
    buildExpand applyE depth s d ms db' q'

/-- The `while exploration_queue and states_processed < estimated_nodes`
loop of `construct_heuristic_database`; the fuel is the remaining budget
`estimated_nodes - states_processed`.  A dequeued entry at depth at least
`exploration_depth` is skipped (`continue`); otherwise it is expanded. -/
def buildLoop (applyE : String → Move → Option String) (movs : List Move)
    (depth : Nat) : Nat → KB → List (String × Nat) → KB
  | 0, db, _ => db
  | _ + 1, db, [] => db
  | fuel + 1, db, (s, d) :: rest =>
    if depth ≤ d then buildLoop applyE movs depth fuel db rest
    else
      let (db', q') := buildExpand applyE depth s d movs db rest
      buildLoop applyE movs depth fuel db' q'

/-- Function `construct_heuristic_database(target_state, move_set, exploration_depth,
existing_knowledge)`: with no existing knowledge the database is seeded with
`{target_state: 0}`; otherwise it is a copy of the existing one (the target
is not re-seeded).  The queue starts at `(target_state, 0)` and the node
budget is `min(len(move_set) ** exploration_depth, 1000000)`. -/
def constructHeuristicDatabase (applyE : String → Move → Option String)
    (target : String) (movs : List Move) (depth : Nat)
    (existing : Option KB) : KB :=
  let db0 :=
    match existing with
    | none => [(target, 0)]
    | some e => e
  buildLoop applyE movs depth (min (movs.length ^ depth) 1000000) db0 [(target, 0)]

/-- Python-object view of `construct_heuristic_database` for the aliasing
claim: dictionaries live in a heap of cells, the caller passes the address
of `existing_knowledge`, the builder copies that cell's value into a fresh
cell (`existing_knowledge.copy()`, line 518) and performs all its writes
there, returning the new cell's address. -/
def constructHeuristicDatabaseHeap (applyE : String → Move → Option String)
    (target : String) (movs : List Move) (depth : Nat)
    (heap : List KB) (a : Nat) : List KB × Nat :=
  let existing := heap.getD a []
  let result := constructHeuristicDatabase applyE target movs depth (some existing)
  (heap ++ [result], heap.length)

/-- Modelled from the spec: the Puzzle Model with a fallible facelet
accessor, for §7's "Errors while sampling heuristic estimators".
`CubicPuzzle` (`puzzle_engine.py`) is not among the analyzed sources, so
whether and when its matrix accessor raises is unknown; `matrixE` returns
`Except.error` where the Python accessor would raise. -/
structure EPuzzleModel where
  applyMoveE : String → Move → Except Unit String
  sizeOf : String → Nat
  matrixE : String → Nat → Nat → Nat → Except Unit Nat
  solvedMatrix : Nat → Nat → Nat → Nat → Nat

/-- Mismatch count over a cell list with the fallible accessor; the first
raised error propagates, as in the estimator bodies (which contain no
`try`). -/
def countMismatchE (P : EPuzzleModel) (s : String) (n : Nat)
    (cells : List (Nat × Nat × Nat)) : Except Unit Nat :=
  cells.foldlM
    (fun acc t => do
      let v ← P.matrixE s t.1 t.2.1 t.2.2
      pure (if v ≠ P.solvedMatrix n t.1 t.2.1 t.2.2 then acc + 1 else acc))
    0

/-- Function `_manhattan_distance_heuristic` over the fallible accessor. -/
def manhattanDistanceHeuristicE (P : EPuzzleModel) (s : String) : Except Unit Nat := do
  let mp ← countMismatchE P s (P.sizeOf s) (faceCells (P.sizeOf s))
  pure (max 1 (mp / 4))

/-- Function `_corner_heuristic` over the fallible accessor. -/
def cornerHeuristicE (P : EPuzzleModel) (s : String) : Except Unit Nat := do
  let mc ← countMismatchE P s (P.sizeOf s)
    ((List.range 6).flatMap (fun f =>
      (cornerPositions (P.sizeOf s)).map (fun rc => (f, rc.1, rc.2))))
  pure (max 0 (mc / 6))

/-- Function `_edge_heuristic` over the fallible accessor. -/
def edgeHeuristicE (P : EPuzzleModel) (s : String) : Except Unit Nat :=
  if 3 ≤ P.sizeOf s then do
    let me ← countMismatchE P s (P.sizeOf s)
      ((List.range 6).flatMap (fun f =>
        (edgePositions (P.sizeOf s)).map (fun rc => (f, rc.1, rc.2))))
    pure (max 0 (me / 8))
  else pure (max 0 (0 / 8))

/-- Function `_get_heuristic_value` over the fallible accessor: there is no
`try`/`except` in its body, so the estimators are sampled in order
(Manhattan, corner, edge) and the first error propagates to the caller. -/
def getHeuristicValueE (P : EPuzzleModel) (db : KB) (s : String) : Except Unit Nat :=
  match lookupKB db s with
  | some v => Except.ok v
  | none => do
    let mh ← manhattanDistanceHeuristicE P s
    let ch ← cornerHeuristicE P s
    let eh ← edgeHeuristicE P s
    pure (max mh (max ch eh))

/-- Function `move_priority` over the fallible accessor: the improving-move probe is
wrapped in `try`/`except: pass`, so an error there leaves the priority at
its base value instead of propagating. -/
def movePriorityE (P : EPuzzleModel) (db : KB) (size : Nat) (s : String)
    (m : Move) : Int :=
  let p0 : Int := 0
  let p1 : Int := if m.layer = 0 ∨ m.layer = size - 1 then p0 - 2 else p0
  let p2 : Int := if m.axis = Axis.horizontal then p1 - 1 else p1
  if s.length ≠ 0 ∧ db ≠ [] then
    match (do
        let ns ← P.applyMoveE s m
        let nh ← getHeuristicValueE P db ns
        let oh ← getHeuristicValueE P db s
        pure (decide (nh < oh)) : Except Unit Bool) with
    | Except.ok true => p2 - 3
    | _ => p2
  else p2

/-- The base priority of a move (`move_priority` before the improving-move
probe): 0, minus 2 for an outer layer, minus 1 for a horizontal move. -/
def movePriorityBase (size : Nat) (m : Move) : Int :=
  let p0 : Int := 0
  let p1 : Int := if m.layer = 0 ∨ m.layer = size - 1 then p0 - 2 else p0
  if m.axis = Axis.horizontal then p1 - 1 else p1

/-- The improving-move probe inside `move_priority`: the body of the `try`
block, over the fallible accessor. -/
def improvingProbeE (P : EPuzzleModel) (db : KB) (s : String) (m : Move) :
    Except Unit Bool := do
  let ns ← P.applyMoveE s m
  let nh ← getHeuristicValueE P db ns
  let oh ← getHeuristicValueE P db s
  pure (decide (nh < oh))

/-- A minimal concrete instance of the Puzzle Model contract (size-2 puzzle
whose facelets all read 0, goal/solved state "S", moves that leave every
state fixed), used to evaluate the embedded engine at concrete inputs. -/
def TrivM : PuzzleModel where
  applyMove s _ := s
  isGoal s := s == "S"
  sizeOf _ := 2
  matrix _ _ _ _ := 0
  solvedOfDim _ := "S"
  solvedMatrix _ _ _ _ := 0

/-- A concrete instance of the fallible Puzzle Model whose facelet accessor
always raises. -/
def EBadM : EPuzzleModel where
  applyMoveE s _ := Except.ok s
  sizeOf _ := 2
  matrixE _ _ _ _ := Except.error ()
  solvedMatrix _ _ _ _ := 0

/-- Claim C2, counterexample: with an empty knowledge base (so the goal
state is not a key), the heuristic evaluated at the goal state of `TrivM`
is 1, not 0 — `_manhattan_distance_heuristic` returns
`max(1, misplaced // 4)`, which is 1 even with zero misplaced facelets.  It
thereby exceeds the true remaining distance at the goal, which is 0. -/
theorem heuristic_at_goal_one_counterexample :
    getHeuristicValue TrivM [] (TrivM.solvedOfDim 2) ≠ 0
    ∧ lookupKB ([] : KB) (TrivM.solvedOfDim 2) = none
    ∧ TrivM.isGoal (TrivM.solvedOfDim 2) = true := by
  refine ⟨by decide, rfl, by decide⟩

/-- Claim C2 as amended: the heuristic at the goal state is the stored
distance when the goal is a knowledge-base key (0 exactly when the stored
distance is 0); when the goal is not a key, the heuristic at any state whose
matrix agrees with the solved matrix of its dimension is 1, not 0, because
the Manhattan estimator floors at 1. -/
theorem heuristic_at_goal_amended (M : PuzzleModel) (db : KB) (g : String) :
    (lookupKB db g = some 0 → getHeuristicValue M db g = 0)
    ∧ (lookupKB db g = none →
        (∀ f r c, M.matrix g f r c = M.solvedMatrix (M.sizeOf g) f r c) →
        getHeuristicValue M db g = 1) := by
  constructor
  · intro h
    simp [getHeuristicValue, h]
  · intro h hsame
    have hmp : misplacedPieces M g = 0 := by
      apply List.countP_eq_zero.mpr
      intro t _
      simp [hsame]
    have hmc : misplacedCorners M g = 0 := by
      apply List.countP_eq_zero.mpr
      intro t _
      simp [hsame]
    have hme : misplacedEdges M g = 0 := by
      unfold misplacedEdges
      split
      · apply List.countP_eq_zero.mpr
        intro t _
        simp [hsame]
      · rfl
    simp [getHeuristicValue, h, manhattanDistanceHeuristic, cornerHeuristic,
      edgeHeuristic, hmp, hmc, hme]

/-- Witness for the amended C2: evaluated on `TrivM`, a knowledge base
holding the goal at 0 yields 0, and the empty knowledge base yields 1. -/
theorem heuristic_at_goal_amended_witness :
    getHeuristicValue TrivM [("S", 0)] "S" = 0
    ∧ getHeuristicValue TrivM [] "S" = 1 :=
  ⟨(heuristic_at_goal_amended TrivM [("S", 0)] "S").1 (by decide),
   (heuristic_at_goal_amended TrivM [] "S").2 rfl (fun _ _ _ => rfl)⟩

/-- Claim C4, counterexample: for a state that is not a knowledge-base key
and has no misplaced facelets, the heuristic is 1, not the claimed maximum
of the three estimator quotients (which is 0). -/
theorem heuristic_fallback_max_counterexample :
    getHeuristicValue TrivM [] "T"
      ≠ max (misplacedPieces TrivM "T" / 4)
          (max (misplacedCorners TrivM "T" / 6) (misplacedEdges TrivM "T" / 8))
    ∧ lookupKB ([] : KB) "T" = none := by
  refine ⟨by decide, rfl⟩

/-- Claim C4 as amended: for a non-key state the heuristic equals
`max(1, misplaced // 4, corners // 6, edges // 8)` — the claimed maximum of
the three quotients, floored at 1 by the Manhattan estimator (the edge
count contributes only for puzzle size at least 3, being 0 otherwise) —
and for a key state it is the stored distance. -/
theorem heuristic_fallback_max_amended (M : PuzzleModel) (db : KB) (s : String) :
    (∀ v, lookupKB db s = some v → getHeuristicValue M db s = v)
    ∧ (lookupKB db s = none →
        getHeuristicValue M db s =
          max 1 (max (misplacedPieces M s / 4)
            (max (misplacedCorners M s / 6) (misplacedEdges M s / 8)))) := by
  constructor
  · intro v h
    simp [getHeuristicValue, h]
  · intro h
    simp only [getHeuristicValue, h, manhattanDistanceHeuristic, cornerHeuristic,
      edgeHeuristic, Nat.zero_max]
    exact Nat.max_assoc 1 _ _

/-- Witness for the amended C4, evaluated on `TrivM` with a stored state and
with a non-key state. -/
theorem heuristic_fallback_max_amended_witness :
    getHeuristicValue TrivM [("U", 7)] "U" = 7
    ∧ getHeuristicValue TrivM [] "T"
        = max 1 (max (misplacedPieces TrivM "T" / 4)
            (max (misplacedCorners TrivM "T" / 6) (misplacedEdges TrivM "T" / 8))) :=
  ⟨(heuristic_fallback_max_amended TrivM [("U", 7)] "U").1 7 (by decide),
   (heuristic_fallback_max_amended TrivM [] "T").2 rfl⟩

/-- Claim C3, counterexample: when the facelet accessor raises while the
Manhattan estimator samples a non-key state, `_get_heuristic_value`
(which contains no `try`/`except`) propagates the error to its caller
instead of treating the estimator as contributing 0. -/
theorem estimator_error_propagates_counterexample :
    getHeuristicValueE EBadM [] "X" = Except.error ()
    ∧ lookupKB ([] : KB) "X" = none := by
  refine ⟨rfl, rfl⟩

/-- Claim C3 as amended: an estimator error propagates out of
`_get_heuristic_value` (its body has no handler); estimator errors are
swallowed and treated as "no contribution" only inside
`_generate_ordered_moves`' `move_priority`, whose `try`/`except: pass`
leaves the priority at its base value. -/
theorem estimator_error_handling_amended (P : EPuzzleModel) (db : KB)
    (s : String) (m : Move) (size : Nat) (e : Unit) :
    (lookupKB db s = none → manhattanDistanceHeuristicE P s = Except.error e →
      getHeuristicValueE P db s = Except.error e)
    ∧ (improvingProbeE P db s m = Except.error e →
      movePriorityE P db size s m = movePriorityBase size m) := by
  constructor
  · intro hmiss herr
    simp only [getHeuristicValueE, hmiss, herr]
    rfl
  · intro herr
    have hprobe : (do
        let ns ← P.applyMoveE s m
        let nh ← getHeuristicValueE P db ns
        let oh ← getHeuristicValueE P db s
        pure (decide (nh < oh)) : Except Unit Bool) = Except.error e := herr
    simp only [movePriorityE, movePriorityBase, hprobe]
    split
    · rfl
    · rfl

/-- Witness for the amended C3, evaluated on the always-raising model. -/
theorem estimator_error_handling_amended_witness :
    getHeuristicValueE EBadM [] "Y" = Except.error ()
    ∧ movePriorityE EBadM [("Z", 1)] 2 "Y" ⟨Axis.horizontal, 0, 0⟩
        = movePriorityBase 2 ⟨Axis.horizontal, 0, 0⟩ :=
  ⟨(estimator_error_handling_amended EBadM [] "Y" ⟨Axis.horizontal, 0, 0⟩ 2 ()).1
      rfl rfl,
   (estimator_error_handling_amended EBadM [("Z", 1)] "Y" ⟨Axis.horizontal, 0, 0⟩ 2 ()).2
      rfl⟩

/-- The first move of `_generate_all_moves(3)`: `('horizontal', 0, 0)`. -/
def mv0 : Move := ⟨Axis.horizontal, 0, 0⟩

/-- The second move of `_generate_all_moves(3)`: `('horizontal', 1, 0)`. -/
def mv1 : Move := ⟨Axis.horizontal, 1, 0⟩

/-- A concrete Puzzle Model instance forcing a bidirectional meeting point
during backward expansion at layer 1: forward "I" → "A" → "A2" (all moves),
backward "G" → "B" (all moves), and "B" reaches the forward-visited "A"
under `mv1` only. -/
def BidirM : PuzzleModel where
  applyMove s m :=
    if s = "I" then "A"
    else if s = "A" then "A2"
    else if s = "G" then "B"
    else if s = "B" then (if m = mv1 then "A" else "C")
    else s
  isGoal s := s == "G"
  sizeOf _ := 3
  matrix _ _ _ _ := 0
  solvedOfDim _ := "G"
  solvedMatrix _ _ _ _ := 0

/-- Claim C1: on `BidirM`, both variants meet during backward expansion of
the state "B" (backward path `[mv0]`) via connecting move `mv1`, with
forward-frontier lookup giving `[]`.  `_bidirectional_search` combines the
meet as the claim states, `forward_path + _reverse_path(backward_path +
[connecting_move])`; `_bidirectional_search_with_timeout` (line 385)
instead computes `_reverse_path([connecting_move] + backward_path)`,
placing the inverted connecting move last instead of first — a slip, since
the two orders differ and only the former undoes the backward walk. -/
theorem bidirTimeout_backward_meet_order :
    (bidirectionalSearch BidirM 20 [] "I").1
      = some ([] ++ reversePath ([mv0] ++ [mv1]))
    ∧ (bidirectionalSearchTimeout BidirM (fun _ => false) [] "I").1
      = some ([] ++ reversePath ([mv1] ++ [mv0]))
    ∧ ([] ++ reversePath ([mv1] ++ [mv0]) : List Move)
      ≠ [] ++ reversePath ([mv0] ++ [mv1]) := by
  refine ⟨by decide, by decide, by decide⟩

/-- Claim C5: when the initial state satisfies the goal test, bounded BFS
returns the empty path (first dequeue hits the goal before any expansion);
bidirectional search returns the empty path for the canonical solved state
(its explicit early check); IDA* returns the empty path (the root is within
the initial threshold `max(h, 1)` and passes the goal test before any move
is tried, and a threshold already above the ceiling also yields `[]`); and
`solve_puzzle` — whose truthiness checks let the empty BFS and bidirectional
results fall through to IDA* — still returns the empty move sequence. -/
theorem goal_state_empty_solution (M : PuzzleModel) (db : KB) (ceiling : Nat) :
    (∀ fuel maxDepth c init, M.isGoal init = true →
      breadthFirstSearch M (fuel + 1) maxDepth c init = (some [], c))
    ∧ (∀ c init, init = M.solvedOfDim 3 →
      bidirectionalSearch M ceiling c init = (some [], c))
    ∧ (∀ fuel c init, M.isGoal init = true →
      (idaStar M db ceiling fuel c init).1 = [])
    ∧ (∀ bfsFuel idaFuel c init, M.isGoal init = true → init = M.solvedOfDim 3 →
      solvePuzzle M db ceiling (bfsFuel + 1) idaFuel c init = []) := by
  have hbfs : ∀ fuel maxDepth c init, M.isGoal init = true →
      breadthFirstSearch M (fuel + 1) maxDepth c init = (some [], c) := by
    intro fuel maxDepth c init hgoal
    simp [breadthFirstSearch, bfsLoop, hgoal]
  have hbid : ∀ c init, init = M.solvedOfDim 3 →
      bidirectionalSearch M ceiling c init = (some [], c) := by
    intro c init h
    simp [bidirectionalSearch, h]
  have hida : ∀ fuel c init, M.isGoal init = true →
      (idaStar M db ceiling fuel c init).1 = [] := by
    intro fuel c init hgoal
    cases fuel with
    | zero => simp [idaStar, idaLoop]
    | succ n =>
      simp only [idaStar, idaLoop]
      split
      · rfl
      · have h2 : initialThreshold M db init + 2 = (initialThreshold M db init + 1) + 1 :=
          rfl
        rw [h2]
        simp only [dfs]
        have hle : ¬ (0 + getHeuristicValue M db init > initialThreshold M db init) := by
          simp [initialThreshold]
        rw [if_neg hle, if_pos hgoal]
  refine ⟨hbfs, hbid, hida, ?_⟩
  intro bfsFuel idaFuel c init hgoal hsolved
  simp only [solvePuzzle]
  rw [hbfs bfsFuel 6 c init hgoal]
  simp only
  rw [hbid c init hsolved]
  simp only
  exact hida idaFuel c init hgoal

/-- Witness for C5 on `TrivM`, whose canonical solved state "S" satisfies
the goal test. -/
theorem goal_state_empty_solution_witness :
    breadthFirstSearch TrivM 1 6 [] "S" = (some [], [])
    ∧ bidirectionalSearch TrivM 20 [] "S" = (some [], [])
    ∧ (idaStar TrivM [] 20 5 [] "S").1 = []
    ∧ solvePuzzle TrivM [] 20 1 5 [] "S" = [] :=
  ⟨(goal_state_empty_solution TrivM [] 20).1 0 6 [] "S" (by decide),
   (goal_state_empty_solution TrivM [] 20).2.1 [] "S" rfl,
   (goal_state_empty_solution TrivM [] 20).2.2.1 5 [] "S" (by decide),
   (goal_state_empty_solution TrivM [] 20).2.2.2 0 5 [] "S" (by decide) rfl⟩

/-- A sequence of `_get_next_state` calls, threading the cache. -/
def runCacheCalls (M : PuzzleModel) : Cache → List (String × Move) → Cache
  | c, [] => c
  | c, (s, m) :: rest => runCacheCalls M ((cachedNext M c s m).2) rest

/-- One `_get_next_state` call preserves the capacity bound. -/
theorem cachedNext_length_le (M : PuzzleModel) (c : Cache) (s : String) (m : Move)
    (h : c.length ≤ maxCacheSize) :
    (cachedNext M c s m).2.length ≤ maxCacheSize := by
  unfold cachedNext
  cases hl : lookupCache c s m with
  | some v => simpa using h
  | none =>
    simp only
    split
    · simp only [List.length_append, List.length_cons, List.length_nil]
      omega
    · simp only [List.length_append, List.length_drop, List.length_cons,
        List.length_nil]
      simp only [maxCacheSize] at *
      omega

/-- Any call sequence from a within-capacity cache stays within capacity. -/
theorem runCacheCalls_length_le (M : PuzzleModel) (calls : List (String × Move))
    (c : Cache) (h : c.length ≤ maxCacheSize) :
    (runCacheCalls M c calls).length ≤ maxCacheSize := by
  induction calls generalizing c with
  | nil => simpa [runCacheCalls] using h
  | cons p rest ih =>
    obtain ⟨s, m⟩ := p
    exact ih _ (cachedNext_length_le M c s m h)

/-- Claim C7: starting from the empty cache, no call sequence to
`_get_next_state` ever leaves more than `max_cache_size = 50000` entries;
a miss at capacity first evicts the oldest `max_cache_size // 4 = 12500`
entries (the front of the insertion-ordered cache) and then appends the new
entry; and every call returns a state — the freshly computed one on a miss,
the stored one on a hit. -/
theorem transition_cache_capacity (M : PuzzleModel) :
    (∀ calls, (runCacheCalls M [] calls).length ≤ maxCacheSize)
    ∧ maxCacheSize = 50000
    ∧ maxCacheSize / 4 = 12500
    ∧ (∀ c s m, lookupCache c s m = none → maxCacheSize ≤ c.length →
        cachedNext M c s m
          = (M.applyMove s m, c.drop (maxCacheSize / 4) ++ [((s, m), M.applyMove s m)]))
    ∧ (∀ c s m, lookupCache c s m = none →
        (cachedNext M c s m).1 = M.applyMove s m)
    ∧ (∀ c s m v, lookupCache c s m = some v → cachedNext M c s m = (v, c)) := by
  refine ⟨?_, rfl, rfl, ?_, ?_, ?_⟩
  · intro calls
    exact runCacheCalls_length_le M calls [] (by simp [maxCacheSize])
  · intro c s m hmiss hfull
    simp only [cachedNext, hmiss]
    rw [if_neg (by omega)]
  · intro c s m hmiss
    simp only [cachedNext, hmiss]
    split <;> rfl
  · intro c s m v hhit
    simp [cachedNext, hhit]

/-- A full cache of 50000 identical entries, for the eviction witness. -/
def fullCache : Cache := List.replicate maxCacheSize ((("a", mv0), "b"))

/-- A query key absent from `fullCache`. -/
theorem fullCache_miss : lookupCache fullCache "q" mv0 = none := by
  have : ∀ n, lookupCache (List.replicate n ((("a", mv0), "b"))) "q" mv0 = none := by
    intro n
    induction n with
    | zero => rfl
    | succ k ih => simpa [List.replicate_succ, lookupCache] using ih
  exact this maxCacheSize

/-- Witness for C7: the capacity bound after a concrete call, and the
eviction equation fired on a concrete full cache. -/
theorem transition_cache_capacity_witness :
    (runCacheCalls TrivM [] [("q", mv0)]).length ≤ maxCacheSize
    ∧ cachedNext TrivM fullCache "q" mv0
      = (TrivM.applyMove "q" mv0,
         fullCache.drop (maxCacheSize / 4) ++ [(("q", mv0), TrivM.applyMove "q" mv0)])
    ∧ (cachedNext TrivM fullCache "q" mv0).1 = TrivM.applyMove "q" mv0
    ∧ cachedNext TrivM [((("a", mv0), "b"))] "a" mv0 = ("b", [((("a", mv0), "b"))]) :=
  ⟨(transition_cache_capacity TrivM).1 [("q", mv0)],
   (transition_cache_capacity TrivM).2.2.2.1 fullCache "q" mv0 fullCache_miss
     (by simp [fullCache]),
   (transition_cache_capacity TrivM).2.2.2.2.1 fullCache "q" mv0 fullCache_miss,
   (transition_cache_capacity TrivM).2.2.2.2.2 [((("a", mv0), "b"))] "a" mv0 "b"
     (by simp [lookupCache])⟩

/-- Claim C10: in the heap view of `construct_heuristic_database`, the cell
holding the caller's `existing_knowledge` dictionary is unchanged by the
call — the builder works on the copy made at line 518 and returns a fresh
cell. -/
theorem builder_existing_not_mutated (applyE : String → Move → Option String)
    (target : String) (movs : List Move) (depth : Nat) (heap : List KB) (a : Nat)
    (ha : a < heap.length) :
    ((constructHeuristicDatabaseHeap applyE target movs depth heap a).1)[a]?
      = heap[a]?
    ∧ (constructHeuristicDatabaseHeap applyE target movs depth heap a).2
      = heap.length := by
  constructor
  · simp only [constructHeuristicDatabaseHeap]
    rw [List.getElem?_append, if_pos ha]
  · rfl

/-- Witness for C10: a one-cell heap whose cell survives the call intact. -/
theorem builder_existing_not_mutated_witness :
    ((constructHeuristicDatabaseHeap (fun _ _ => none) "G" [mv0] 3 [[("k", 1)]] 0).1)[0]?
      = [[(("k" : String), (1 : Nat))]][0]?
    ∧ (constructHeuristicDatabaseHeap (fun _ _ => none) "G" [mv0] 3 [[("k", 1)]] 0).2 = 1 :=
  builder_existing_not_mutated (fun _ _ => none) "G" [mv0] 3 [[("k", 1)]] 0 (by decide)

/-- Membership after a dictionary write: the new pair or an old one. -/
theorem mem_insertKB (db : KB) (s : String) (v : Nat) (p : String × Nat)
    (h : p ∈ insertKB db s v) : p = (s, v) ∨ p ∈ db := by
  induction db with
  | nil =>
    simp [insertKB] at h
    exact Or.inl h
  | cons kv rest ih =>
    obtain ⟨k, w⟩ := kv
    simp only [insertKB] at h
    split at h
    · rename_i hk
      rcases List.mem_cons.mp h with h1 | h1
      · subst hk
        exact Or.inl h1
      · exact Or.inr (List.mem_cons_of_mem _ h1)
    · rcases List.mem_cons.mp h with h1 | h1
      · exact Or.inr (h1 ▸ List.mem_cons_self _ _)
      · rcases ih h1 with h2 | h2
        · exact Or.inl h2
        · exact Or.inr (List.mem_cons_of_mem _ h2)

/-- A write at a different key leaves a lookup unchanged. -/
theorem lookupKB_insertKB_ne (db : KB) (s t : String) (v : Nat) (h : t ≠ s) :
    lookupKB (insertKB db s v) t = lookupKB db t := by
  induction db with
  | nil =>
    simp only [insertKB, lookupKB]
    rw [if_neg (fun hh => h hh.symm)]
  | cons kv rest ih =>
    obtain ⟨k, w⟩ := kv
    simp only [insertKB]
    split
    · rename_i hk
      subst hk
      have hkt : ¬ k = t := fun hh => h hh.symm
      simp only [lookupKB]
      rw [if_neg hkt, if_neg hkt]
    · simp only [lookupKB]
      split
      · rfl
      · exact ih

/-- Entries of the database after one builder move: old ones, or the new
state at distance `d + 1`. -/
theorem mem_buildStep (applyE : String → Move → Option String) (depth : Nat)
    (s : String) (d : Nat) (db : KB) (q : List (String × Nat)) (m : Move)
    (p : String × Nat) (h : p ∈ (buildStep applyE depth s d db q m).1) :
    p ∈ db ∨ p.2 = d + 1 := by
  unfold buildStep at h
  cases happ : applyE s m with
  | none =>
    rw [happ] at h
    exact Or.inl h
  | some ns =>
    rw [happ] at h
    simp only at h
    split at h
    · rcases mem_insertKB _ _ _ _ h with h1 | h1
      · right
        rw [h1]
      · exact Or.inl h1
    · exact Or.inl h

/-- The builder never overwrites the target's 0 entry in one move: the
guard `knowledge_db[new_state] > new_distance` fails against 0. -/
theorem lookupKB_buildStep_target (applyE : String → Move → Option String)
    (depth : Nat) (s : String) (d : Nat) (db : KB) (q : List (String × Nat))
    (m : Move) (target : String) (h : lookupKB db target = some 0) :
    lookupKB (buildStep applyE depth s d db q m).1 target = some 0 := by
  unfold buildStep
  cases happ : applyE s m with
  | none => exact h
  | some ns =>
    simp only
    by_cases hts : target = ns
    · subst hts
      rw [h]
      simp only [show ¬ ((0 : Nat) > d + 1) by omega, if_false]
      exact h
    · split
      · rw [lookupKB_insertKB_ne db ns target (d + 1) hts]
        exact h
      · exact h

/-- Entries after the whole per-move loop of one dequeued node. -/
theorem mem_buildExpand (applyE : String → Move → Option String) (depth : Nat)
    (s : String) (d : Nat) (movs : List Move) (db : KB) (q : List (String × Nat))
    (p : String × Nat) (h : p ∈ (buildExpand applyE depth s d movs db q).1) :
    p ∈ db ∨ p.2 = d + 1 := by
  induction movs generalizing db q with
  | nil => exact Or.inl h
  | cons m ms ih =>
    simp only [buildExpand] at h
    rcases ih _ _ h with h1 | h1
    · exact mem_buildStep applyE depth s d db q m p h1
    · exact Or.inr h1

/-- The target keeps its 0 entry through the per-move loop. -/
theorem lookupKB_buildExpand_target (applyE : String → Move → Option String)
    (depth : Nat) (s : String) (d : Nat) (movs : List Move) (db : KB)
    (q : List (String × Nat)) (target : String)
    (h : lookupKB db target = some 0) :
    lookupKB (buildExpand applyE depth s d movs db q).1 target = some 0 := by
  induction movs generalizing db q with
  | nil => exact h
  | cons m ms ih =>
    simp only [buildExpand]
    exact ih _ _ (lookupKB_buildStep_target applyE depth s d db q m target h)

/-- Entries after any number of loop iterations: a distance recorded during
the run is at most `exploration_depth` (writes happen only for nodes
dequeued below the depth bound, at `d + 1`); everything else was already in
the database. -/
theorem mem_buildLoop (applyE : String → Move → Option String) (movs : List Move)
    (depth fuel : Nat) (db : KB) (q : List (String × Nat)) (p : String × Nat)
    (h : p ∈ buildLoop applyE movs depth fuel db q) :
    p ∈ db ∨ p.2 ≤ depth := by
  induction fuel generalizing db q with
  | zero => exact Or.inl h
  | succ n ih =>
    cases q with
    | nil => exact Or.inl h
    | cons e rest =>
      obtain ⟨s, d⟩ := e
      simp only [buildLoop] at h
      split at h
      · exact ih _ _ h
      · rename_i hd
        rcases ih _ _ h with h1 | h1
        · rcases mem_buildExpand applyE depth s d movs db rest p h1 with h2 | h2
          · exact Or.inl h2
          · right
            omega
        · exact Or.inr h1

/-- The target keeps its 0 entry through the whole loop. -/
theorem lookupKB_buildLoop_target (applyE : String → Move → Option String)
    (movs : List Move) (depth fuel : Nat) (db : KB) (q : List (String × Nat))
    (target : String) (h : lookupKB db target = some 0) :
    lookupKB (buildLoop applyE movs depth fuel db q) target = some 0 := by
  induction fuel generalizing db q with
  | zero => exact h
  | succ n ih =>
    cases q with
    | nil => exact h
    | cons e rest =>
      obtain ⟨s, d⟩ := e
      simp only [buildLoop]
      split
      · exact ih _ _ h
      · exact ih _ _ (lookupKB_buildExpand_target applyE depth s d movs db rest target h)

/-- Claim C6, counterexample: with an existing knowledge base supplied for
extension, copied entries are not clamped to the exploration depth and the
target is not re-seeded — here the returned base keeps "X" at distance 25
with depth 20, and has no entry (hence not 0) for the target "G" (all moves
of this instance raise, so nothing is recorded). -/
theorem knowledge_base_existing_counterexample :
    constructHeuristicDatabase (fun _ _ => none) "G" (generateAllMoves 3) 20
        (some [("X", 25)]) = [("X", 25)]
    ∧ ¬ ((25 : Nat) ≤ 20)
    ∧ lookupKB [("X", 25)] "G" = none := by
  refine ⟨by decide, by omega, rfl⟩

/-- Claim C6 as amended: for a knowledge base built with
`exploration_depth = d` and no existing knowledge, every stored distance is
at most `d` and the target's entry is exactly 0, and both facts are
invariants of the dequeue/expand loop; when an existing knowledge base is
supplied, the copied entries are returned as they were (they may exceed `d`
and the target's entry is whatever the existing base held), while every
newly recorded distance is at most `d`. -/
theorem knowledge_base_depth_bound_amended (applyE : String → Move → Option String)
    (target : String) (movs : List Move) (depth : Nat) :
    (∀ p, p ∈ constructHeuristicDatabase applyE target movs depth none →
      p.2 ≤ depth)
    ∧ lookupKB (constructHeuristicDatabase applyE target movs depth none) target
      = some 0
    ∧ (∀ fuel db q, (∀ p, p ∈ db → p.2 ≤ depth) →
      ∀ p, p ∈ buildLoop applyE movs depth fuel db q → p.2 ≤ depth)
    ∧ (∀ fuel db q, lookupKB db target = some 0 →
      lookupKB (buildLoop applyE movs depth fuel db q) target = some 0)
    ∧ (∀ existing p,
      p ∈ constructHeuristicDatabase applyE target movs depth (some existing) →
      p ∈ existing ∨ p.2 ≤ depth) := by
  have hinv : ∀ fuel db q, (∀ p, p ∈ db → p.2 ≤ depth) →
      ∀ p, p ∈ buildLoop applyE movs depth fuel db q → p.2 ≤ depth := by
    intro fuel db q hdb p hp
    rcases mem_buildLoop applyE movs depth fuel db q p hp with h | h
    · exact hdb p h
    · exact h
  refine ⟨?_, ?_, hinv, ?_, ?_⟩
  · intro p hp
    refine hinv _ _ _ ?_ p hp
    intro r hr
    simp only [List.mem_singleton] at hr
    rw [hr]
    exact Nat.zero_le depth
  · exact lookupKB_buildLoop_target applyE movs depth _ _ _ target (by simp [lookupKB])
  · intro fuel db q h
    exact lookupKB_buildLoop_target applyE movs depth fuel db q target h
  · intro existing p hp
    exact mem_buildLoop applyE movs depth _ existing _ p hp

/-- Witness for the amended C6, evaluated on a two-state instance: every
move maps any state to "N", so the fresh build with depth 2 stores "G" at 0
and "N" at 1. -/
theorem knowledge_base_depth_bound_amended_witness :
    (∀ p, p ∈ constructHeuristicDatabase (fun _ _ => some "N") "G" [mv0] 2 none →
      p.2 ≤ 2)
    ∧ lookupKB (constructHeuristicDatabase (fun _ _ => some "N") "G" [mv0] 2 none) "G"
      = some 0
    ∧ (∀ p, p ∈ constructHeuristicDatabase (fun _ _ => some "N") "G" [mv0] 2
        (some [("X", 25)]) → p ∈ [(("X" : String), (25 : Nat))] ∨ p.2 ≤ 2) :=
  ⟨(knowledge_base_depth_bound_amended (fun _ _ => some "N") "G" [mv0] 2).1,
   (knowledge_base_depth_bound_amended (fun _ _ => some "N") "G" [mv0] 2).2.1,
   (knowledge_base_depth_bound_amended (fun _ _ => some "N") "G" [mv0] 2).2.2.2.2
     [("X", 25)]⟩

/-- Claim C8: IDA* starts at threshold `max(heuristic(initial), 1)`; a node
whose `f = g + h` exceeds the current threshold is pruned immediately (no
children are generated) while `next_threshold` is lowered to the minimum
exceeding `f` seen; an unsuccessful iteration whose recorded
`next_threshold` is finite continues at exactly that threshold; and if no
iteration at a threshold within the depth ceiling succeeds, the search
returns the empty move sequence. -/
theorem ida_star_threshold_management (M : PuzzleModel) (db : KB) (ceiling : Nat) :
    (∀ fuel c init, idaStar M db ceiling fuel c init
      = idaLoop M db ceiling init fuel (max (getHeuristicValue M db init) 1) c)
    ∧ (∀ t fuel s g prev st, g + getHeuristicValue M db s > t →
      dfs M db t (fuel + 1) s g prev st
        = (false, [], bumpNext st (g + getHeuristicValue M db s)))
    ∧ (∀ t fuel init c l st2 nt, t ≤ ceiling →
      dfs M db t (t + 2) init 0 none ⟨[], none, c⟩ = (false, l, st2) →
      st2.nextThreshold = some nt →
      idaLoop M db ceiling init (fuel + 1) t c
        = idaLoop M db ceiling init fuel nt st2.cache)
    ∧ (∀ init fuel t c,
      (∀ t2 c2, t2 ≤ ceiling →
        (dfs M db t2 (t2 + 2) init 0 none ⟨[], none, c2⟩).1 = false) →
      (idaLoop M db ceiling init fuel t c).1 = []) := by
  refine ⟨fun fuel c init => rfl, ?_, ?_, ?_⟩
  · intro t fuel s g prev st hgt
    simp only [dfs]
    rw [if_pos hgt]
  · intro t fuel init c l st2 nt ht hdfs hnt
    simp only [idaLoop]
    rw [if_neg (by omega), hdfs]
    simp only [hnt]
  · intro init fuel t c hall
    induction fuel generalizing t c with
    | zero => rfl
    | succ n ih =>
      simp only [idaLoop]
      by_cases ht : t > ceiling
      · rw [if_pos ht]
      · rw [if_neg ht]
        rcases hdfs : dfs M db t (t + 2) init 0 none ⟨[], none, c⟩ with ⟨b, l, st⟩
        have hb : b = false := by
          have := hall t c (Nat.le_of_not_lt ht)
          rw [hdfs] at this
          exact this
        subst hb
        simp only
        cases hnt : st.nextThreshold with
        | none => rfl
        | some nt => exact ih nt st.cache

/-- Witness for C8 on `TrivM` (goal test never satisfied at "X", heuristic
identically 1 for the empty knowledge base): pruning at threshold 0,
threshold raising from 1 to the recorded minimum 2, and overall failure at
ceiling 0. -/
theorem ida_star_threshold_management_witness :
    idaStar TrivM [] 0 3 [] "X"
      = idaLoop TrivM [] 0 "X" 3 (max (getHeuristicValue TrivM [] "X") 1) []
    ∧ dfs TrivM [] 0 1 "X" 1 none ⟨[], none, []⟩
      = (false, [], bumpNext ⟨[], none, []⟩ (1 + getHeuristicValue TrivM [] "X"))
    ∧ idaLoop TrivM [] 2 "X" 1 1 []
      = idaLoop TrivM [] 2 "X" 0 2
          (dfs TrivM [] 1 3 "X" 0 none ⟨[], none, []⟩).2.2.cache
    ∧ (idaLoop TrivM [] 0 "X" 4 1 []).1 = [] :=
  ⟨(ida_star_threshold_management TrivM [] 0).1 3 [] "X",
   (ida_star_threshold_management TrivM [] 0).2.1 0 0 "X" 1 none ⟨[], none, []⟩
     (by decide),
   (ida_star_threshold_management TrivM [] 2).2.2.1 1 0 "X" []
     (dfs TrivM [] 1 3 "X" 0 none ⟨[], none, []⟩).2.1
     (dfs TrivM [] 1 3 "X" 0 none ⟨[], none, []⟩).2.2 2
     (by omega) (by decide) (by decide),
   (ida_star_threshold_management TrivM [] 0).2.2.2 "X" 4 1 []
     (fun t2 c2 ht => by
       have ht0 : t2 = 0 := Nat.le_zero.mp ht
       subst ht0
       show (dfs TrivM [] 0 (1 + 1) "X" 0 none ⟨[], none, c2⟩).1 = false
       rw [(ida_star_threshold_management TrivM [] 0).2.1 0 1 "X" 0 none
         ⟨[], none, c2⟩ (by decide)])⟩

/-- Function `_get_next_state` only depends on the model through `applyMove` at the
queried pair. -/
theorem cachedNext_congr (M M' : PuzzleModel) (c : Cache) (s : String) (m : Move)
    (h : M.applyMove s m = M'.applyMove s m) :
    cachedNext M c s m = cachedNext M' c s m := by
  unfold cachedNext
  rw [h]

/-- Forward per-move expansion only consults `applyMove` on the moves of its
move list. -/
theorem expandMovesF_congr (M M' : PuzzleModel) (s : String) (path : List Move)
    (bf : Frontier) (ms : List Move) (bv fv : Visited) (nf : Frontier) (c : Cache)
    (h : ∀ m ∈ ms, ∀ x, M.applyMove x m = M'.applyMove x m) :
    expandMovesF M s path bf ms bv fv nf c = expandMovesF M' s path bf ms bv fv nf c := by
  induction ms generalizing bv fv nf c with
  | nil => rfl
  | cons m rest ih =>
    simp only [expandMovesF]
    rw [cachedNext_congr M M' c s m (h m (List.mem_cons_self m rest) s)]
    have hrest : ∀ m2 ∈ rest, ∀ x, M.applyMove x m2 = M'.applyMove x m2 :=
      fun m2 hm2 => h m2 (List.mem_cons_of_mem m hm2)
    split
    · rfl
    · split
      · exact ih _ _ _ _ hrest
      · exact ih _ _ _ _ hrest

/-- Forward frontier expansion only consults `applyMove` on its move list. -/
theorem expandStatesF_congr (M M' : PuzzleModel) (movs : List Move) (bf ff : Frontier)
    (bv fv : Visited) (nf : Frontier) (c : Cache)
    (h : ∀ m ∈ movs, ∀ x, M.applyMove x m = M'.applyMove x m) :
    expandStatesF M movs bf ff bv fv nf c = expandStatesF M' movs bf ff bv fv nf c := by
  induction ff generalizing fv nf c with
  | nil => rfl
  | cons e rest ih =>
    obtain ⟨s, path⟩ := e
    simp only [expandStatesF]
    rw [expandMovesF_congr M M' s path bf movs bv fv nf c h]
    cases expandMovesF M' s path bf movs bv fv nf c with
    | error r => rfl
    | ok r =>
      obtain ⟨nf', fv', c'⟩ := r
      exact ih fv' nf' c'

/-- Backward per-move expansion (plain variant) only consults `applyMove`
on its move list. -/
theorem expandMovesB1_congr (M M' : PuzzleModel) (s : String) (path : List Move)
    (nf : Frontier) (ms : List Move) (fv bv : Visited) (nb : Frontier) (c : Cache)
    (h : ∀ m ∈ ms, ∀ x, M.applyMove x m = M'.applyMove x m) :
    expandMovesB1 M s path nf ms fv bv nb c = expandMovesB1 M' s path nf ms fv bv nb c := by
  induction ms generalizing fv bv nb c with
  | nil => rfl
  | cons m rest ih =>
    simp only [expandMovesB1]
    rw [cachedNext_congr M M' c s m (h m (List.mem_cons_self m rest) s)]
    have hrest : ∀ m2 ∈ rest, ∀ x, M.applyMove x m2 = M'.applyMove x m2 :=
      fun m2 hm2 => h m2 (List.mem_cons_of_mem m hm2)
    split
    · rfl
    · split
      · exact ih _ _ _ _ hrest
      · exact ih _ _ _ _ hrest

/-- Backward frontier expansion (plain variant), likewise. -/
theorem expandStatesB1_congr (M M' : PuzzleModel) (movs : List Move) (nf bf : Frontier)
    (fv bv : Visited) (nb : Frontier) (c : Cache)
    (h : ∀ m ∈ movs, ∀ x, M.applyMove x m = M'.applyMove x m) :
    expandStatesB1 M movs nf bf fv bv nb c = expandStatesB1 M' movs nf bf fv bv nb c := by
  induction bf generalizing bv nb c with
  | nil => rfl
  | cons e rest ih =>
    obtain ⟨s, path⟩ := e
    simp only [expandStatesB1]
    rw [expandMovesB1_congr M M' s path nf movs fv bv nb c h]
    cases expandMovesB1 M' s path nf movs fv bv nb c with
    | error r => rfl
    | ok r =>
      obtain ⟨nb', bv', c'⟩ := r
      exact ih bv' nb' c'

/-- Backward per-move expansion (timeout variant), likewise. -/
theorem expandMovesB2_congr (M M' : PuzzleModel) (s : String) (path : List Move)
    (nf : Frontier) (ms : List Move) (fv bv : Visited) (nb : Frontier) (c : Cache)
    (h : ∀ m ∈ ms, ∀ x, M.applyMove x m = M'.applyMove x m) :
    expandMovesB2 M s path nf ms fv bv nb c = expandMovesB2 M' s path nf ms fv bv nb c := by
  induction ms generalizing fv bv nb c with
  | nil => rfl
  | cons m rest ih =>
    simp only [expandMovesB2]
    rw [cachedNext_congr M M' c s m (h m (List.mem_cons_self m rest) s)]
    have hrest : ∀ m2 ∈ rest, ∀ x, M.applyMove x m2 = M'.applyMove x m2 :=
      fun m2 hm2 => h m2 (List.mem_cons_of_mem m hm2)
    split
    · rfl
    · split
      · exact ih _ _ _ _ hrest
      · exact ih _ _ _ _ hrest

/-- Backward frontier expansion (timeout variant), likewise. -/
theorem expandStatesB2_congr (M M' : PuzzleModel) (movs : List Move) (nf bf : Frontier)
    (fv bv : Visited) (nb : Frontier) (c : Cache)
    (h : ∀ m ∈ movs, ∀ x, M.applyMove x m = M'.applyMove x m) :
    expandStatesB2 M movs nf bf fv bv nb c = expandStatesB2 M' movs nf bf fv bv nb c := by
  induction bf generalizing bv nb c with
  | nil => rfl
  | cons e rest ih =>
    obtain ⟨s, path⟩ := e
    simp only [expandStatesB2]
    rw [expandMovesB2_congr M M' s path nf movs fv bv nb c h]
    cases expandMovesB2 M' s path nf movs fv bv nb c with
    | error r => rfl
    | ok r =>
      obtain ⟨nb', bv', c'⟩ := r
      exact ih bv' nb' c'

/-- The plain bidirectional layer loop only consults `applyMove` on its
move list. -/
theorem bidirLoop1_congr (M M' : PuzzleModel) (movs : List Move) (d : Nat)
    (ff bf : Frontier) (fv bv : Visited) (c : Cache)
    (h : ∀ m ∈ movs, ∀ x, M.applyMove x m = M'.applyMove x m) :
    bidirLoop1 M movs d ff bf fv bv c = bidirLoop1 M' movs d ff bf fv bv c := by
  induction d generalizing ff bf fv bv c with
  | zero => rfl
  | succ n ih =>
    simp only [bidirLoop1]
    rw [expandStatesF_congr M M' movs bf ff bv fv [] c h]
    cases expandStatesF M' movs bf ff bv fv [] c with
    | error r => rfl
    | ok r =>
      obtain ⟨nf, fv', c'⟩ := r
      simp only
      split
      · rfl
      · rw [expandStatesB1_congr M M' movs nf bf fv' bv [] c' h]
        cases expandStatesB1 M' movs nf bf fv' bv [] c' with
        | error r2 => rfl
        | ok r2 =>
          obtain ⟨nb, bv', c''⟩ := r2
          simp only
          split
          · rfl
          · exact ih nf nb fv' bv' c''

/-- The timeout bidirectional layer loop, likewise. -/
theorem bidirLoop2_congr (M M' : PuzzleModel) (movs : List Move)
    (timedOut : Nat → Bool) (d idx : Nat) (ff bf : Frontier) (fv bv : Visited)
    (c : Cache) (h : ∀ m ∈ movs, ∀ x, M.applyMove x m = M'.applyMove x m) :
    bidirLoop2 M movs timedOut d idx ff bf fv bv c
      = bidirLoop2 M' movs timedOut d idx ff bf fv bv c := by
  induction d generalizing idx ff bf fv bv c with
  | zero => rfl
  | succ n ih =>
    simp only [bidirLoop2]
    split
    · rfl
    · rw [expandStatesF_congr M M' movs bf ff bv fv [] c h]
      cases expandStatesF M' movs bf ff bv fv [] c with
      | error r => rfl
      | ok r =>
        obtain ⟨nf, fv', c'⟩ := r
        simp only
        rw [expandStatesB2_congr M M' movs nf bf fv' bv [] c' h]
        cases expandStatesB2 M' movs nf bf fv' bv [] c' with
        | error r2 => rfl
        | ok r2 =>
          obtain ⟨nb, bv', c''⟩ := r2
          exact ih (idx + 1) nf nb fv' bv' c''

/-- Claim C9: both bidirectional variants are a function of the model's
3-dimensional fragment only — the solved state `CubicPuzzle(dimension=3)`
and `applyMove` on the 18 moves of `_generate_all_moves(3)`.  Two models
agreeing there produce identical searches for every initial state, no
matter how they differ on `sizeOf` (the dimension encoded in the state),
`isGoal`, the matrix, other dimensions' solved states, or moves with other
layers; and the enumerated move set has exactly `6 * 3 = 18` moves. -/
theorem bidirectional_size3_only (M M' : PuzzleModel)
    (hsolved : M.solvedOfDim 3 = M'.solvedOfDim 3)
    (happly : ∀ m ∈ generateAllMoves 3, ∀ x, M.applyMove x m = M'.applyMove x m) :
    (∀ ceiling c init,
      bidirectionalSearch M ceiling c init = bidirectionalSearch M' ceiling c init)
    ∧ (∀ timedOut c init,
      bidirectionalSearchTimeout M timedOut c init
        = bidirectionalSearchTimeout M' timedOut c init)
    ∧ (generateAllMoves 3).length = 18 := by
  refine ⟨?_, ?_, by decide⟩
  · intro ceiling c init
    simp only [bidirectionalSearch, hsolved]
    split
    · rfl
    · exact bidirLoop1_congr M M' (generateAllMoves 3) _ _ _ _ _ c happly
  · intro timedOut c init
    simp only [bidirectionalSearchTimeout, hsolved]
    split
    · rfl
    · exact bidirLoop2_congr M M' (generateAllMoves 3) timedOut 6 0 _ _ _ _ c happly

/-- Witness for C9: `BidirM` against a model that differs from it in
`sizeOf`, `isGoal`, the matrix, and on every move outside
`_generate_all_moves(3)`, yet searches identically. -/
theorem bidirectional_size3_only_witness :
    bidirectionalSearch BidirM 20 [] "I"
      = bidirectionalSearch
          { BidirM with
            sizeOf := fun _ => 7
            isGoal := fun _ => false
            matrix := fun _ _ _ _ => 9
            applyMove := fun s m =>
              if m ∈ generateAllMoves 3 then BidirM.applyMove s m else "ELSEWHERE" }
          20 [] "I"
    ∧ (generateAllMoves 3).length = 18 :=
  ⟨(bidirectional_size3_only BidirM
      { BidirM with
        sizeOf := fun _ => 7
        isGoal := fun _ => false
        matrix := fun _ _ _ _ => 9
        applyMove := fun s m =>
          if m ∈ generateAllMoves 3 then BidirM.applyMove s m else "ELSEWHERE" }
      rfl (fun m hm x => by simp [hm])).1 20 [] "I",
   (bidirectional_size3_only BidirM BidirM rfl (fun _ _ _ => rfl)).2.2⟩

end CubeSol
